import Mathlib

/-!
Shallow embedding of the text-manipulation engine of
`nodes/TextManipulation/TextManipulation.node.ts` (the current revision of the
file, i.e. the copy importing `deepCopy` from `n8n-workflow`).

Strings are modelled as `List Char`.  All concrete data exercised by the
theorems lies in the Basic Multilingual Plane, where a JavaScript string's
UTF-16 code units are in bijection with its code points, so `List Char` is a
faithful model of the JavaScript string values involved.

Errors: every `throw new NodeOperationError(node, msg, {itemIndex})` in the
source is modelled as `Except.error (OpErr.nodeOperationError msg)`; the
attribution to the record's index is carried by the surrounding harness and is
not part of the per-operation functions.
-/

/-- Error raised by the operation engine; mirrors `NodeOperationError(msg)`. -/
inductive OpErr
  | nodeOperationError (msg : String)
deriving DecidableEq, Repr

deriving instance DecidableEq for Except

/-! ## JavaScript string primitives (ECMA-262 semantics) -/

/-- The characters accepted by `String.prototype.trim` (ECMA-262 `TrimString`):
WhiteSpace ∪ LineTerminator. -/
def jsWhitespaceChar (c : Char) : Bool :=
  c ∈ ['\t', '\n', '\x0b', '\x0c', '\r', ' ', ' ', ' ',
       ' ', ' ', ' ', ' ', ' ', ' ', ' ',
       ' ', ' ', ' ', ' ', ' ', ' ', ' ',
       ' ', '　', '﻿']

/-- Models `String.prototype.trimStart`. -/
def jsTrimStart (s : List Char) : List Char :=
  s.dropWhile jsWhitespaceChar

/-- Models `String.prototype.trimEnd`. -/
def jsTrimEnd (s : List Char) : List Char :=
  (s.reverse.dropWhile jsWhitespaceChar).reverse

/-- Models `String.prototype.trim`. -/
def jsTrim (s : List Char) : List Char :=
  jsTrimEnd (jsTrimStart s)

/-- Clamp an integer index into `[0, len]` (ECMA-262: `min(max(intStart,0),len)`). -/
def jsClampIndex (i : Int) (len : Nat) : Nat :=
  if i < 0 then 0 else min i.toNat len

/-- Models `String.prototype.substring (start, end?)`: both indices are clamped into
`[0, len]` (negative values become 0) and swapped when start > end. -/
def jsSubstring (s : List Char) (start : Int) (endv : Option Int) : List Char :=
  let len := s.length
  let intStart := jsClampIndex start len
  let intEnd := match endv with
    | none => len
    | some e => jsClampIndex e len
  let lo := min intStart intEnd
  let hi := max intStart intEnd
  (s.drop lo).take (hi - lo)

/-- Truncated repetition of `pad` to exactly `n` characters (ECMA-262 `StringPad`). -/
def padFill (pad : List Char) (n : Nat) : List Char :=
  if pad.isEmpty then [] else (List.replicate (n / pad.length + 1) pad).flatten.take n

/-- Models `String.prototype.padStart (targetLength, padString)`. -/
def jsPadStart (s : List Char) (targetLength : Int) (pad : List Char) : List Char :=
  let len := s.length
  let maxLength := targetLength.toNat
  if maxLength ≤ len then s
  else if pad.isEmpty then s
  else padFill pad (maxLength - len) ++ s

/-- Models `String.prototype.padEnd (targetLength, padString)`. -/
def jsPadEnd (s : List Char) (targetLength : Int) (pad : List Char) : List Char :=
  let len := s.length
  let maxLength := targetLength.toNat
  if maxLength ≤ len then s
  else if pad.isEmpty then s
  else s ++ padFill pad (maxLength - len)

/-! ## lodash character-set trims

`trim(string, chars)` / `trimStart` / `trimEnd` with an explicit `chars`
argument strip, from the affected end(s), every character that occurs in
`chars` (set semantics).  With `chars = ""` lodash returns the string
unchanged, which coincides with dropping on the everywhere-false predicate. -/

/-- lodash `trimStart(string, chars)`. -/
def lodashTrimStart (s chars : List Char) : List Char :=
  s.dropWhile (fun c => chars.contains c)

/-- lodash `trimEnd(string, chars)`. -/
def lodashTrimEnd (s chars : List Char) : List Char :=
  (s.reverse.dropWhile (fun c => chars.contains c)).reverse

/-- lodash `trim(string, chars)`. -/
def lodashTrim (s chars : List Char) : List Char :=
  lodashTrimEnd (lodashTrimStart s chars) chars

/-! ## As-unit trims (`charsTrimStart` / `charsTrimEnd` / `charsTrim`)

The source builds the regex `^(tok)+` (resp. `(tok)+$`, resp. the alternation
of both with flag `g`) from the `escapeRegExp`-escaped trim string and replaces
every match with `""`.  `^(tok)+` greedily removes the maximal leading run of
whole `tok` tokens; `(tok)+$`, scanned after the leading match, removes the
maximal trailing run of whole tokens of what remains.  This equals repeatedly
stripping the whole token from the corresponding end, which is how it is
modelled here (for an empty token the regex only makes empty matches and the
string is unchanged). -/

/-- Repeatedly strip the whole token `tok` from the front of `s`
(fuel-indexed for structural recursion; fuel `s.length` always suffices). -/
def stripTokensStartFuel (tok : List Char) : Nat → List Char → List Char
  | 0, s => s
  | fuel + 1, s =>
    if tok.isEmpty then s
    else if tok.isPrefixOf s then stripTokensStartFuel tok fuel (s.drop tok.length)
    else s

/-- Maximal removal of leading whole-token repetitions (regex `^(tok)+`). -/
def stripTokensStart (tok s : List Char) : List Char :=
  stripTokensStartFuel tok s.length s

/-- Maximal removal of trailing whole-token repetitions (regex `(tok)+$`). -/
def stripTokensEnd (tok s : List Char) : List Char :=
  (stripTokensStart tok.reverse s.reverse).reverse

/-- Source `charsTrimStart(str, chars)`: single-space fast path, else `^(chars)+ → ""`. -/
def charsTrimStart (str chars : List Char) : List Char :=
  if chars = [' '] then jsTrimStart str else stripTokensStart chars str

/-- Source `charsTrimEnd(str, chars)`: single-space fast path, else `(chars)+$ → ""`. -/
def charsTrimEnd (str chars : List Char) : List Char :=
  if chars = [' '] then jsTrimEnd str else stripTokensEnd chars str

/-- Source `charsTrim(str, chars)`: single-space fast path, else
`^(chars)+|(chars)+$ → ""` (leading run removed first, then the trailing run
of the remainder). -/
def charsTrim (str chars : List Char) : List Char :=
  if chars = [' '] then jsTrim str else stripTokensEnd chars (stripTokensStart chars str)

/-! ## The `trim`, `pad` and `substring` operations of `execute` -/

/-- Source `case 'trim'` of `execute`: dispatch on `manipulation.trim`, choosing the
as-unit functions when `manipulation.trimStringUnit` is set and the lodash
character-set trims otherwise. -/
def trimOp (trimSel : String) (trimStringUnit : Bool) (trimString text : List Char) :
    Except OpErr (List Char) :=
  match trimSel with
  | "trimBoth" =>
    .ok (if trimStringUnit then charsTrim text trimString else lodashTrim text trimString)
  | "trimStart" =>
    .ok (if trimStringUnit then charsTrimStart text trimString else lodashTrimStart text trimString)
  | "trimEnd" =>
    .ok (if trimStringUnit then charsTrimEnd text trimString else lodashTrimEnd text trimString)
  | _ => .error (.nodeOperationError "trimBoth, trimStart or trimEnd are valid options")

/-- Source `case 'pad'` of `execute`: the target-length bound is checked before the
direction switch (`targetLength == null || targetLength < 0` throws first). -/
def padOp (padSel : String) (targetLength : Option Int) (padString text : List Char) :
    Except OpErr (List Char) :=
  match targetLength with
  | none => .error (.nodeOperationError "The Target Length has to be set to at least 0 or higher!")
  | some tl =>
    if tl < 0 then
      .error (.nodeOperationError "The Target Length has to be set to at least 0 or higher!")
    else
      match padSel with
      | "padStart" => .ok (jsPadStart text tl padString)
      | "padEnd" => .ok (jsPadEnd text tl padString)
      | _ => .error (.nodeOperationError "padStart or padEnd are valid options")

/-- Source `case 'substring'` of `execute`.  In the `length` end-mode a negative start
uses `text.length + startPosition + endLength` as the end bound; either way the
window is cut with JavaScript `String.prototype.substring`, which clamps
negative indices to 0. -/
def substringOp (startPosition : Int) (endSel : String) (endPosition : Int)
    (endLength : Option Int) (text : List Char) : Except OpErr (List Char) :=
  match endSel with
  | "complete" => .ok (jsSubstring text startPosition none)
  | "position" => .ok (jsSubstring text startPosition (some endPosition))
  | "length" =>
    match endLength with
    | none => .error (.nodeOperationError "The Length has to be set to at least 0 or higher!")
    | some el =>
      if el < 0 then
        .error (.nodeOperationError "The Length has to be set to at least 0 or higher!")
      else if startPosition < 0 then
        .ok (jsSubstring text startPosition (some ((text.length : Int) + startPosition + el)))
      else
        .ok (jsSubstring text startPosition (some (startPosition + el)))
  | _ => .error (.nodeOperationError "complete, position or length are valid options")

/-! ## Byte encodings (iconv-lite model)

Modelled from the spec: §4.1 Encoding Registry — the iconv-lite library is an
external collaborator (`decode(bytes, charset, {stripBOM}) -> string`,
`encode(string, charset, {addBOM}) -> bytes`).  Two concrete BOM-aware
charsets are instantiated, UTF-8 and UTF-16LE, with their standard byte
algorithms.  `iconv.decode` honours only the `stripBOM` option (default
`true`: a leading U+FEFF of the decoded text is removed); `iconv.encode`
honours only the `addBOM` option (default `false`: when set, U+FEFF is
prepended to the text before encoding).  An options object may carry either
key; a key the direction does not understand is ignored, exactly as a
JavaScript options object field that is never read. -/

/-- A byte sequence (each entry < 256 for well-formed data). -/
abbrev Bytes := List Nat

/-- The BOM-handling options object passed to `iconv.decode` / `iconv.encode`. -/
structure IconvOptions where
  addBOM : Option Bool := none
  stripBOM : Option Bool := none
deriving DecidableEq, Repr

/-- The two charsets our model instantiates (both BOM-aware in iconv-lite). -/
inductive Charset
  | utf8
  | utf16le
deriving DecidableEq, Repr

/-- UTF-8 encoding of one scalar value. -/
def utf8EncodeChar (c : Char) : Bytes :=
  let n := c.toNat
  if n < 0x80 then [n]
  else if n < 0x800 then [0xC0 + n / 64, 0x80 + n % 64]
  else if n < 0x10000 then [0xE0 + n / 4096, 0x80 + n / 64 % 64, 0x80 + n % 64]
  else [0xF0 + n / 262144, 0x80 + n / 4096 % 64, 0x80 + n / 64 % 64, 0x80 + n % 64]

/-- UTF-8 encoding of a string (`Buffer.from(text)` / iconv utf8 encode). -/
def utf8Encode (s : List Char) : Bytes :=
  s.flatMap utf8EncodeChar

/-- Is `b` a UTF-8 continuation byte? -/
def utf8IsCont (b : Nat) : Bool :=
  0x80 ≤ b && b < 0xC0

/-- Fuel-indexed UTF-8 decoder (`Buffer.prototype.toString` / iconv utf8
decode): strict, one U+FFFD per rejected lead byte. -/
def utf8DecodeFuel : Nat → Bytes → List Char
  | 0, _ => []
  | _, [] => []
  | fuel + 1, b :: rest =>
    if b < 0x80 then Char.ofNat b :: utf8DecodeFuel fuel rest
    else if b < 0xC2 then '\uFFFD' :: utf8DecodeFuel fuel rest
    else if b < 0xE0 then
      match rest with
      | c :: rest2 =>
        if utf8IsCont c then Char.ofNat ((b - 0xC0) * 64 + (c - 0x80)) :: utf8DecodeFuel fuel rest2
        else '\uFFFD' :: utf8DecodeFuel fuel rest
      | [] => ['\uFFFD']
    else if b < 0xF0 then
      match rest with
      | c :: d :: rest2 =>
        if utf8IsCont c && utf8IsCont d then
          let n := (b - 0xE0) * 4096 + (c - 0x80) * 64 + (d - 0x80)
          if n < 0x800 || (0xD800 ≤ n && n < 0xE000) then '\uFFFD' :: utf8DecodeFuel fuel rest2
          else Char.ofNat n :: utf8DecodeFuel fuel rest2
        else '\uFFFD' :: utf8DecodeFuel fuel rest
      | _ => '\uFFFD' :: utf8DecodeFuel fuel rest
    else if b < 0xF5 then
      match rest with
      | c :: d :: e :: rest2 =>
        if utf8IsCont c && utf8IsCont d && utf8IsCont e then
          let n := (b - 0xF0) * 262144 + (c - 0x80) * 4096 + (d - 0x80) * 64 + (e - 0x80)
          if n < 0x10000 || 0x110000 ≤ n then '\uFFFD' :: utf8DecodeFuel fuel rest2
          else Char.ofNat n :: utf8DecodeFuel fuel rest2
        else '\uFFFD' :: utf8DecodeFuel fuel rest
      | _ => '\uFFFD' :: utf8DecodeFuel fuel rest
    else '\uFFFD' :: utf8DecodeFuel fuel rest

/-- UTF-8 decoding of a byte sequence. -/
def utf8Decode (b : Bytes) : List Char :=
  utf8DecodeFuel b.length b

/-- UTF-16LE encoding (surrogate pairs for astral scalars). -/
def utf16leEncodeChar (c : Char) : Bytes :=
  let n := c.toNat
  if n < 0x10000 then [n % 256, n / 256]
  else
    let m := n - 0x10000
    let hi := 0xD800 + m / 0x400
    let lo := 0xDC00 + m % 0x400
    [hi % 256, hi / 256, lo % 256, lo / 256]

/-- UTF-16LE encoding of a string. -/
def utf16leEncode (s : List Char) : Bytes :=
  s.flatMap utf16leEncodeChar

/-- Fuel-indexed UTF-16LE decoder: pairs of bytes form code units, surrogate
pairs recombine, lone surrogates and a trailing odd byte become U+FFFD. -/
def utf16leDecodeFuel : Nat → Bytes → List Char
  | 0, _ => []
  | _, [] => []
  | _ + 1, [_] => ['\uFFFD']
  | fuel + 1, b1 :: b2 :: rest =>
    let u := b1 + 256 * b2
    if 0xD800 ≤ u && u < 0xDC00 then
      match rest with
      | c1 :: c2 :: rest2 =>
        let v := c1 + 256 * c2
        if 0xDC00 ≤ v && v < 0xE000 then
          Char.ofNat (0x10000 + (u - 0xD800) * 0x400 + (v - 0xDC00)) :: utf16leDecodeFuel fuel rest2
        else '\uFFFD' :: utf16leDecodeFuel fuel rest
      | _ => '\uFFFD' :: utf16leDecodeFuel fuel rest
    else if 0xDC00 ≤ u && u < 0xE000 then '\uFFFD' :: utf16leDecodeFuel fuel rest
    else Char.ofNat u :: utf16leDecodeFuel fuel rest

/-- UTF-16LE decoding of a byte sequence. -/
def utf16leDecode (b : Bytes) : List Char :=
  utf16leDecodeFuel b.length b

/-- Charset body decoding (no BOM handling). -/
def Charset.decodeBody : Charset → Bytes → List Char
  | .utf8 => utf8Decode
  | .utf16le => utf16leDecode

/-- Charset body encoding (no BOM handling). -/
def Charset.encodeBody : Charset → List Char → Bytes
  | .utf8 => utf8Encode
  | .utf16le => utf16leEncode

/-- Models `iconv.decode(buffer, charset, options)`: decode, then remove one leading
U+FEFF when `options.stripBOM` (default `true`) holds; the `addBOM` key is
never read on this direction. -/
def iconvDecode (b : Bytes) (cs : Charset) (opts : IconvOptions) : List Char :=
  let s := cs.decodeBody b
  if opts.stripBOM.getD true then
    match s with
    | '\uFEFF' :: t => t
    | _ => s
  else s

/-- Models `iconv.encode(text, charset, options)`: prepend U+FEFF when
`options.addBOM` (default `false`) holds, then encode; the `stripBOM` key is
never read on this direction. -/
def iconvEncode (s : List Char) (cs : Charset) (opts : IconvOptions) : Bytes :=
  cs.encodeBody (if opts.addBOM.getD false then '\uFEFF' :: s else s)

/-- Source `case 'decodeEncode'` of `execute`, exactly as written: a no-op when the
charsets are equal, otherwise
`iconv.encode(iconv.decode(Buffer.from(text), decodeWith, {addBOM}), encodeWith, {stripBOM}).toString()`
— note that the source passes the configured `addBOM` into the *decode* call
and the configured `stripBOM` into the *encode* call. -/
def decodeEncodeOp (decodeWith encodeWith : Charset) (addBOM stripBOM : Bool)
    (text : List Char) : List Char :=
  if encodeWith = decodeWith then text
  else
    utf8Decode
      (iconvEncode (iconvDecode (utf8Encode text) decodeWith { addBOM := some addBOM })
        encodeWith { stripBOM := some stripBOM })

/-- Modelled from the spec: the DecodeEncode behaviour C1 asserts — `stripBOM`
honoured on the decode direction and `addBOM` honoured on the encode
direction (this matches the node's own UI, which offers `stripBOM` for a
BOM-aware `decodeWith` and `addBOM` for a BOM-aware `encodeWith`). -/
def decodeEncodeClaimed (decodeWith encodeWith : Charset) (addBOM stripBOM : Bool)
    (text : List Char) : List Char :=
  if encodeWith = decodeWith then text
  else
    utf8Decode
      (iconvEncode (iconvDecode (utf8Encode text) decodeWith { stripBOM := some stripBOM })
        encodeWith { addBOM := some addBOM })

/-! ## `buildRegexGroup` and the `normalize` operation -/

/-- Source `buildRegexGroup(base, min, max)`: JavaScript number truthiness (`if (min)`)
is `min ≠ 0`. -/
def buildRegexGroup (base : String) (mn mx : Int) : String :=
  if mn ≠ 0 then
    if mx ≠ 0 then base ++ "\x7b" ++ toString mn ++ "," ++ toString mx ++ "\x7d"
    else base ++ "\x7b" ++ toString mn ++ ",\x7d"
  else if mx ≠ 0 then base ++ "\x7b" ++ toString mx ++ "\x7d"
  else base ++ "*"

/-- The four Unicode normalization primitives, external to the source
(`String.prototype.normalize`); the `normalize` case of `execute` only
dispatches on the form name, so they stay abstract parameters here. -/
structure NormalizeImpl where
  nfc : List Char → List Char
  nfd : List Char → List Char
  nfkc : List Char → List Char
  nfkd : List Char → List Char

/-- Modelled from the spec: a stand-in instance for the external
`String.prototype.normalize` builtin; the theorems about `normalizeOp` only
exercise the unknown-form control path, which never invokes these fields. -/
def normalizeStub : NormalizeImpl :=
  { nfc := id, nfd := id, nfkc := id, nfkd := id }

/-- Source `case 'normalize'` of `execute`: unlike every other enum switch in the
source, this switch has no `default` branch — an unrecognized
`manipulation.normalizeForm` falls through with `text` unchanged and no
`NodeOperationError` is thrown. -/
def normalizeOp (impl : NormalizeImpl) (normalizeForm : String) (text : List Char) :
    Except OpErr (List Char) :=
  match normalizeForm with
  | "nfc" => .ok (impl.nfc text)
  | "nfd" => .ok (impl.nfd text)
  | "nfkc" => .ok (impl.nfkc text)
  | "nfkd" => .ok (impl.nfkd text)
  | _ => .ok text

/-! ## Regex-literal parsing and the `regex` replace mode

The source matches the configured pattern against `^/(.*?)/([gimusy]*)$`.
`splitRegexLiteral` models that match: the string must start with `/`; the
lazy body is the shortest run of non-line-terminator characters followed by a
`/` whose remaining suffix consists only of flag characters; on success it
returns (body, flags).  The replacement itself (`String.prototype.replace`)
is modelled for the regex fragment the configuration under audit uses:
literal characters and capturing parentheses, with the `i` (ASCII
case-insensitive here) and `g` flags, and `$$`/`$&`/`$n` substitution. -/

/-- The flag characters of the literal form (`[gimusy]`). -/
def isRegexFlagChar (c : Char) : Bool :=
  c ∈ ['g', 'i', 'm', 'u', 's', 'y']

/-- ECMA-262 LineTerminator (which `.` does not match). -/
def isLineTerm (c : Char) : Bool :=
  c ∈ ['\n', '\r', ' ', ' ']

/-- Scan for the lazy split of `^/(.*?)/([gimusy]*)$` after the initial `/`:
the earliest `/` whose suffix is all flags ends the body; a line terminator
before that kills the whole match. -/
def splitRegexLiteralGo (acc : List Char) : List Char → Option (List Char × List Char)
  | [] => none
  | c :: t =>
    if c = '/' && t.all isRegexFlagChar then some (acc.reverse, t)
    else if isLineTerm c then none
    else splitRegexLiteralGo (c :: acc) t

/-- The match `regexStr.match(/^\/(.*?)\/([gimusy]*)$/)`, as (body, flags). -/
def splitRegexLiteral : List Char → Option (List Char × List Char)
  | '/' :: rest => splitRegexLiteralGo [] rest
  | _ => none

/-- A token of the supported regex fragment. -/
inductive RTok
  | lit (c : Char)
  | gopen
  | gclose
deriving DecidableEq, Repr

/-- Compile a pattern body of the supported fragment (literal characters and
capturing parentheses, as in `a(b)c`). -/
def compileLit (body : List Char) : List RTok :=
  body.map fun c => if c = '(' then .gopen else if c = ')' then .gclose else .lit c

/-- ASCII lower-casing (the case folding the `i` flag needs on ASCII data). -/
def asciiLower (c : Char) : Char :=
  if 'A' ≤ c && c ≤ 'Z' then Char.ofNat (c.toNat + 32) else c

/-- Match a token list at position `pos` of `s`; `idx` numbers capturing
groups from 1, `stk` holds open groups, `caps` the closed
(group, start, stop) spans.  Returns the end position and captures. -/
def matchToks (ci : Bool) (s : List Char) :
    List RTok → Nat → Nat → List (Nat × Nat) → List (Nat × Nat × Nat) →
    Option (Nat × List (Nat × Nat × Nat))
  | [], pos, _, _, caps => some (pos, caps)
  | .lit c :: ts, pos, idx, stk, caps =>
    match s.get? pos with
    | some d =>
      if (if ci then asciiLower c = asciiLower d else c = d) then
        matchToks ci s ts (pos + 1) idx stk caps
      else none
    | none => none
  | .gopen :: ts, pos, idx, stk, caps => matchToks ci s ts pos (idx + 1) ((idx, pos) :: stk) caps
  | .gclose :: ts, pos, idx, stk, caps =>
    match stk with
    | (i, st) :: stk2 => matchToks ci s ts pos idx stk2 ((i, st, pos) :: caps)
    | [] => none

/-- The segment `s[st..en)`. -/
def segOf (s : List Char) (st en : Nat) : List Char :=
  (s.drop st).take (en - st)

/-- The text captured by group `i`, if that group exists. -/
def capText (s : List Char) (caps : List (Nat × Nat × Nat)) (i : Nat) : Option (List Char) :=
  match caps.find? (fun c => c.1 = i) with
  | some (_, st, en) => some (segOf s st en)
  | none => none

/-- ECMA-262 `GetSubstitution` for the forms `$$`, `$&` and single-digit
`$n`: an out-of-range `$n` stays literal. -/
def applyTemplate (s : List Char) (whole : List Char) (caps : List (Nat × Nat × Nat)) :
    List Char → List Char
  | [] => []
  | '$' :: '$' :: rest => '$' :: applyTemplate s whole caps rest
  | '$' :: '&' :: rest => whole ++ applyTemplate s whole caps rest
  | '$' :: c :: rest =>
    if '1' ≤ c && c ≤ '9' then
      match capText s caps (c.toNat - 48) with
      | some t => t ++ applyTemplate s whole caps rest
      | none => '$' :: c :: applyTemplate s whole caps rest
    else '$' :: c :: applyTemplate s whole caps rest
  | c :: rest => c :: applyTemplate s whole caps rest

/-- Models `String.prototype.replace` over the compiled fragment: scan left to
right; on a match emit the substituted template and continue after it (a
zero-width match emits the current character and advances one); `g` selects
every occurrence, otherwise only the first. -/
def replaceFrom (ci g : Bool) (toks : List RTok) (tmpl s : List Char) :
    Nat → Nat → List Char
  | 0, pos => s.drop pos
  | fuel + 1, pos =>
    match matchToks ci s toks pos 1 [] [] with
    | some (en, caps) =>
      let rep := applyTemplate s (segOf s pos en) caps tmpl
      if g then
        if pos < en then rep ++ replaceFrom ci g toks tmpl s fuel en
        else
          match s.get? pos with
          | some c => rep ++ c :: replaceFrom ci g toks tmpl s fuel (pos + 1)
          | none => rep
      else rep ++ s.drop en
    | none =>
      match s.get? pos with
      | some c => c :: replaceFrom ci g toks tmpl s fuel (pos + 1)
      | none => []

/-- Models `text.replace(re, tmpl)` with the compiled fragment `toks` and flags. -/
def regexReplace (toks : List RTok) (ci g : Bool) (tmpl s : List Char) : List Char :=
  replaceFrom ci g toks tmpl s (s.length + 1) 0

/-- Source `case 'regex'` of the `replace` operation (without the `extended`
escape-unescaping path, which no audited claim involves): parse the pattern
as a regex literal when possible, otherwise use the whole string as the body
with no flags. -/
def regexReplaceOp (regexStr pattern text : List Char) : List Char :=
  match splitRegexLiteral regexStr with
  | none => regexReplace (compileLit regexStr) false false pattern text
  | some (body, flags) =>
    regexReplace (compileLit body) (flags.contains 'i') (flags.contains 'g') pattern text

/-! ## Data-source resolution and the per-record pipeline

Structured fields are modelled as a flat association list from key to JSON
value (the external lodash `get`/`set` by dotted path is the list lookup /
replace-or-append on the full path string; nesting is immaterial to the
audited claims) and the attachment map as an association list from key to
`Bytes`.  `PipelineState` carries the raw input record (`item.json`,
`item.binary`) next to the accumulating output (`newItemJson`,
`newItemBinary`) so that reads and commits are explicit about which of the
two they touch. -/

/-- A JSON value, as far as the resolution logic inspects one. -/
inductive JVal
  | str (s : List Char)
  | num (n : Int)
  | jbool (b : Bool)
  | null
deriving DecidableEq, Repr

/-- JavaScript truthiness of `get`'s result (`undefined`, `null`, `false`,
`0` and `""` are falsy). -/
def truthy : Option JVal → Bool
  | none => false
  | some .null => false
  | some (.jbool b) => b
  | some (.num n) => n ≠ 0
  | some (.str s) => !s.isEmpty

/-- Models `((value as string | null) ?? '').toString()` for a non-string value. -/
def jsToString : Option JVal → List Char
  | none => []
  | some .null => []
  | some (.str s) => s
  | some (.num n) => (toString n).toList
  | some (.jbool b) => (toString b).toList

/-- What resolving one data source yields: a skip (`continue`) or a text. -/
inductive ResolveResult
  | skip
  | text (t : List Char)
deriving DecidableEq, Repr

/-- The value-selection and stringification tail of `case 'fromJSON'`, applied
to an already-selected `value`. -/
def resolveValue (skipNonString : Bool) (value : Option JVal) : ResolveResult :=
  match value with
  | some (.str s) => .text s
  | _ => if skipNonString then .skip else .text (jsToString value)

/-- Source `case 'fromJSON'` of `execute`:
`const value = (getManipulatedData && get(newItemJson, key)) || get(item.json, key)`
— with `getManipulatedData` set, the committed value is used only when it is
*truthy*; otherwise (absent or falsy) the raw record's value is read. -/
def resolveFromJSON (getManipulatedData skipNonString : Bool)
    (newItemJson itemJson : List (String × JVal)) (sourceKey : String) : ResolveResult :=
  let value : Option JVal :=
    if getManipulatedData && truthy (newItemJson.lookup sourceKey) then
      newItemJson.lookup sourceKey
    else itemJson.lookup sourceKey
  resolveValue skipNonString value

/-- Source `case 'fromFile'` of `execute`: with `getManipulatedData` set, look up the
attachment in `newItemBinary` first and fall back to `item.binary` when the
key is `undefined` there; without it, read `item.binary` directly; a key
absent from the consulted map(s) is a `continue` (skip).  The found bytes are
decoded with the configured charset, honouring `fileStripBOM`. -/
def resolveFromFile (getManipulatedData : Bool) (fileDecodeWith : Charset)
    (fileStripBOM : Bool) (newItemBinary itemBinary : List (String × Bytes))
    (binaryPropertyName : String) : ResolveResult :=
  if getManipulatedData then
    match newItemBinary.lookup binaryPropertyName with
    | none =>
      match itemBinary.lookup binaryPropertyName with
      | none => .skip
      | some d => .text (iconvDecode d fileDecodeWith { stripBOM := some fileStripBOM })
    | some d => .text (iconvDecode d fileDecodeWith { stripBOM := some fileStripBOM })
  else
    match itemBinary.lookup binaryPropertyName with
    | none => .skip
    | some d => .text (iconvDecode d fileDecodeWith { stripBOM := some fileStripBOM })

/-- A configured read operation (`dataSource.readOperation`). -/
inductive ReadOp
  | fromFile (binaryPropertyName : String) (fileDecodeWith : Charset)
      (fileStripBOM getManipulatedData : Bool)
  | fromJSON (sourceKey : String) (getManipulatedData skipNonString : Bool)
  | fromText (text : List Char)

/-- A configured write operation (`dataSource.writeOperation`); filename and
MIME type only feed the external `prepareBinaryData` and are omitted. -/
inductive WriteOp
  | toFile (destinationBinaryPropertyName : String) (fileEncodeWith : Charset)
      (fileAddBOM : Bool)
  | toJSON (destinationKey : String)

/-- One configured data source: exactly one read and one write variant. -/
structure DataSourceCfg where
  readOperation : ReadOp
  writeOperation : WriteOp

/-- One "text with manipulations" group.  The manipulation bodies only ever
read and write the threaded `text` value — never the record state — so they
are carried as plain text transforms here. -/
structure TextGroupCfg where
  dataSources : List DataSourceCfg
  manipulations : List (List Char → List Char)

/-- The state of processing one input record: the raw record's fields next to
the output being accumulated. -/
structure PipelineState where
  itemJson : List (String × JVal)
  itemBinary : List (String × Bytes)
  newItemJson : List (String × JVal)
  newItemBinary : List (String × Bytes)

/-- Replace-or-append on an association list (lodash `set` on the path /
keyed assignment into the attachment map). -/
def assocSet {β : Type} (l : List (String × β)) (k : String) (v : β) : List (String × β) :=
  match l with
  | [] => [(k, v)]
  | (k2, v2) :: t => if k2 = k then (k, v) :: t else (k2, v2) :: assocSet t k v

/-- Resolve one data source against the current state. -/
def resolveSource (st : PipelineState) : ReadOp → ResolveResult
  | .fromFile key cs sb gm => resolveFromFile gm cs sb st.newItemBinary st.itemBinary key
  | .fromJSON key gm sk => resolveFromJSON gm sk st.newItemJson st.itemJson key
  | .fromText t => .text t

/-- Commit the final text of one data source: `toFile` encodes (honouring
`fileAddBOM`) into `newItemBinary`, `toJSON` sets the key in `newItemJson`. -/
def commitWrite (st : PipelineState) (t : List Char) : WriteOp → PipelineState
  | .toFile key cs ab =>
    { st with
      newItemBinary := assocSet st.newItemBinary key (iconvEncode t cs { addBOM := some ab }) }
  | .toJSON key => { st with newItemJson := assocSet st.newItemJson key (.str t) }

/-- Process one data source: resolve (skipping silently), fold the group's
manipulations over the text, commit. -/
def processDataSource (manipulations : List (List Char → List Char))
    (ds : DataSourceCfg) (st : PipelineState) : PipelineState :=
  match resolveSource st ds.readOperation with
  | .skip => st
  | .text t => commitWrite st (manipulations.foldl (fun acc f => f acc) t) ds.writeOperation

/-- Process one input record: seed the output with a deep copy of the
record's fields and a fresh map seeded from its attachments (empty ones when
`keepOnlySet`), then fold every group's data sources in declared order. -/
def processItem (keepOnlySet : Bool) (groups : List TextGroupCfg)
    (itemJson : List (String × JVal)) (itemBinary : List (String × Bytes)) : PipelineState :=
  let st0 : PipelineState :=
    { itemJson := itemJson, itemBinary := itemBinary,
      newItemJson := if keepOnlySet then [] else itemJson,
      newItemBinary := if keepOnlySet then [] else itemBinary }
  groups.foldl
    (fun st g => g.dataSources.foldl (fun st2 ds => processDataSource g.manipulations ds st2) st)
    st0

/-! ## Helper lemmas -/

/-- Membership in the singleton list `[' ']` is equality with the space
character. -/
theorem contains_single_space : (fun c : Char => ([' '] : List Char).contains c) =
    fun c : Char => c == ' ' := by
  funext c
  by_cases h : c = ' ' <;> simp [List.contains, h]

/-- Lemma: `processDataSource` never writes the raw input record's fields. -/
theorem processDataSource_item_frame (m : List (List Char → List Char)) (ds : DataSourceCfg)
    (st : PipelineState) :
    (processDataSource m ds st).itemJson = st.itemJson ∧
      (processDataSource m ds st).itemBinary = st.itemBinary := by
  unfold processDataSource
  split
  · exact ⟨rfl, rfl⟩
  · cases ds.writeOperation <;> exact ⟨rfl, rfl⟩

/-- Folding data sources of one group preserves the raw input record. -/
theorem foldl_dataSources_item_frame (m : List (List Char → List Char)) :
    ∀ (l : List DataSourceCfg) (st : PipelineState),
      ((l.foldl (fun st2 ds => processDataSource m ds st2) st).itemJson = st.itemJson ∧
        (l.foldl (fun st2 ds => processDataSource m ds st2) st).itemBinary = st.itemBinary)
  | [], _ => ⟨rfl, rfl⟩
  | d :: t, st => by
    have h1 := processDataSource_item_frame m d st
    have h2 := foldl_dataSources_item_frame m t (processDataSource m d st)
    simp only [List.foldl_cons]
    exact ⟨h2.1.trans h1.1, h2.2.trans h1.2⟩

/-- Folding all text groups preserves the raw input record. -/
theorem foldl_groups_item_frame :
    ∀ (groups : List TextGroupCfg) (st : PipelineState),
      ((groups.foldl
          (fun st g => g.dataSources.foldl (fun st2 ds => processDataSource g.manipulations ds st2)
            st) st).itemJson = st.itemJson ∧
        (groups.foldl
          (fun st g => g.dataSources.foldl (fun st2 ds => processDataSource g.manipulations ds st2)
            st) st).itemBinary = st.itemBinary)
  | [], _ => ⟨rfl, rfl⟩
  | g :: t, st => by
    have h1 := foldl_dataSources_item_frame g.manipulations g.dataSources st
    have h2 := foldl_groups_item_frame t
      (g.dataSources.foldl (fun st2 ds => processDataSource g.manipulations ds st2) st)
    simp only [List.foldl_cons]
    exact ⟨h2.1.trans h1.1, h2.2.trans h1.2⟩

/-- The lazy body scan succeeds on `body ++ '/' :: flags` when `body` holds no
`/` and no line terminator and `flags` holds only flag characters. -/
theorem splitRegexLiteralGo_append :
    ∀ (body : List Char) (acc flags : List Char),
      (∀ c ∈ body, c ≠ '/' ∧ isLineTerm c = false) →
      flags.all isRegexFlagChar = true →
      splitRegexLiteralGo acc (body ++ '/' :: flags) = some (acc.reverse ++ body, flags)
  | [], acc, flags, _, hf => by
    simp [splitRegexLiteralGo, hf]
  | c :: t, acc, flags, h, hf => by
    have hc := h c (List.mem_cons_self c t)
    have ih := splitRegexLiteralGo_append t (c :: acc) flags
      (fun d hd => h d (List.mem_cons_of_mem c hd)) hf
    have hcond : (decide (c = '/') && ((t ++ '/' :: flags).all isRegexFlagChar)) = false := by
      simp [hc.1]
    simp only [List.cons_append, splitRegexLiteralGo, List.append_eq, hcond, hc.2,
      Bool.false_eq_true, if_false]
    rw [ih]
    simp

/-! ## Claim theorems -/

/-- C1: the claim says the in-chain DecodeEncode applies `stripBOM` on the
decode direction and `addBOM` on the encode direction.  The code passes the
configured `addBOM` into `iconv.decode` and the configured `stripBOM` into
`iconv.encode`, where each is ignored, so both options have no effect at all:
with decode utf8, encode utf16le, `addBOM = true` on the string `"a"` the code
yields the utf16le bytes of `"a"` with no BOM (read back as `"a\x00"`), while
the claimed semantics prepends the BOM (read back as `"��a\x00"`);
and the code's output is invariant under both configured options. -/
theorem c1_decodeEncode_bom_options_swapped :
    decodeEncodeOp .utf8 .utf16le true true ['a'] = ['a', '\x00'] ∧
      decodeEncodeClaimed .utf8 .utf16le true true ['a'] = ['�', '�', 'a', '\x00'] ∧
      decodeEncodeOp .utf8 .utf16le true true ['a'] ≠
        decodeEncodeClaimed .utf8 .utf16le true true ['a'] ∧
      ∀ (dw ew : Charset) (a b a2 b2 : Bool) (t : List Char),
        decodeEncodeOp dw ew a b t = decodeEncodeOp dw ew a2 b2 t :=
  ⟨by decide, by decide, by decide, fun _ _ _ _ _ _ _ => rfl⟩

/-- C2: the claim says a negative Substring start offset means
offset-from-end, so that start=-3/length=2 on `"HelloWorld"` equals
start=7/endPosition=9, namely `"rl"`.  The code cuts with JavaScript
`String.prototype.substring`, which clamps a negative start to 0: at the
end-anchored bound `10 + (-3) + 2 = 9` the first form yields `"HelloWorl"`,
not `"rl"`. -/
theorem c2_substring_negative_start_clamped :
    substringOp (-3) "length" 0 (some 2) "HelloWorld".toList = .ok "HelloWorl".toList ∧
      substringOp 7 "position" 9 none "HelloWorld".toList = .ok "rl".toList ∧
      "HelloWorl".toList ≠ "rl".toList :=
  ⟨by decide, by decide, by decide⟩

/-- C8: as-unit trim strips the whole configured trim string as an atomic
token: `Trim(both, asUnit=true, "ab")` on `"ababXab"` yields `"X"`,
`Trim(both, asUnit=false, "ab")` also yields `"X"`, and
`Trim(both, asUnit=true, "ba")` leaves `"ababXab"` unchanged. -/
theorem c8_trim_as_unit_examples :
    trimOp "trimBoth" true "ab".toList "ababXab".toList = .ok "X".toList ∧
      trimOp "trimBoth" false "ab".toList "ababXab".toList = .ok "X".toList ∧
      trimOp "trimBoth" true "ba".toList "ababXab".toList = .ok "ababXab".toList :=
  ⟨by decide, by decide, by decide⟩

/-- C9: `Pad(padStart, targetLength=5, pad=" ")` on `"ab"` yields `"   ab"`
(length 5), and a negative target length fails with the parameter error
before the direction switch is consulted, for every direction string, fill
string and input. -/
theorem c9_pad_example_and_negative_target :
    padOp "padStart" (some 5) " ".toList "ab".toList = .ok "   ab".toList ∧
      ("   ab".toList).length = 5 ∧
      ∀ (padSel : String) (fill s : List Char),
        padOp padSel (some (-1)) fill s =
          .error (.nodeOperationError "The Target Length has to be set to at least 0 or higher!") :=
  ⟨by decide, by decide, fun _ _ _ => rfl⟩

/-- C10: processing a record never mutates the raw input record: with
`keepOnlySet = false` the output starts from copies of the record's fields
and attachments, and every commit (`toJSON` set, `toFile` attachment write)
targets only `newItemJson` / `newItemBinary`, so after all groups the
`itemJson` / `itemBinary` components equal the original input. -/
theorem c10_process_preserves_input_record :
    ∀ (groups : List TextGroupCfg) (ij : List (String × JVal)) (ib : List (String × Bytes)),
      (processItem false groups ij ib).itemJson = ij ∧
        (processItem false groups ij ib).itemBinary = ib ∧
        (processItem false [] ij ib).newItemJson = ij ∧
        (processItem false [] ij ib).newItemBinary = ib := by
  intro groups ij ib
  have h := foldl_groups_item_frame groups
    { itemJson := ij, itemBinary := ib, newItemJson := ij, newItemBinary := ib }
  exact ⟨h.1, h.2, rfl, rfl⟩

/-- C3 counterexample: the claim says a Normalize operation with a form value
outside {NFC, NFD, NFKC, NFKD} raises a fatal error.  On the form `"xyz"` (not
one of the recognized lowercase values) the operation returns the input
unchanged as a success — the switch has no default branch. -/
theorem c3_normalize_unknown_form_counterexample :
    normalizeOp normalizeStub "xyz" ['a'] = .ok ['a'] := by decide

/-- C3 amended: for every normalization implementation, every input string and
every form value outside the recognized set, the `normalize` operation
silently returns the string unchanged (no `InvalidOptionError` is raised). -/
theorem c3_normalize_unknown_form_no_error (impl : NormalizeImpl) (form : String)
    (text : List Char) (h1 : form ≠ "nfc") (h2 : form ≠ "nfd") (h3 : form ≠ "nfkc")
    (h4 : form ≠ "nfkd") : normalizeOp impl form text = .ok text := by
  unfold normalizeOp
  split <;> simp_all

/-- C3 witness: the amended theorem applied at the unknown form `"xyz"`. -/
theorem c3_witness :
    ("xyz" ≠ "nfc" ∧ "xyz" ≠ "nfd" ∧ "xyz" ≠ "nfkc" ∧ "xyz" ≠ "nfkd") ∧
      normalizeOp normalizeStub "xyz" ['b'] = .ok ['b'] :=
  ⟨⟨by decide, by decide, by decide, by decide⟩,
    c3_normalize_unknown_form_no_error normalizeStub "xyz" ['b'] (by decide) (by decide)
      (by decide) (by decide)⟩

/-- C4 counterexample: the claim says min=0 yields `*` regardless of the
configured max.  With min=0 and max=2 the code emits `{2}` (exactly two),
not `*`. -/
theorem c4_buildRegexGroup_counterexample :
    buildRegexGroup "\\d" 0 2 = "\\d\x7b2\x7d" ∧ "\\d\x7b2\x7d" ≠ "\\d" ++ "*" :=
  ⟨by decide, by decide⟩

/-- C4 amended: min=0 with max=0 yields `*`; min=0 with max≠0 yields `{max}`
(exactly max); min≠0 with max=0 yields `{min,}`; both nonzero yields
`{min,max}`. -/
theorem c4_buildRegexGroup_characterization (base : String) (mn mx : Int) :
    buildRegexGroup base 0 0 = base ++ "*" ∧
      (mx ≠ 0 → buildRegexGroup base 0 mx = base ++ "\x7b" ++ toString mx ++ "\x7d") ∧
      (mn ≠ 0 → buildRegexGroup base mn 0 = base ++ "\x7b" ++ toString mn ++ ",\x7d") ∧
      (mn ≠ 0 → mx ≠ 0 →
        buildRegexGroup base mn mx =
          base ++ "\x7b" ++ toString mn ++ "," ++ toString mx ++ "\x7d") := by
  refine ⟨by simp [buildRegexGroup], fun h => ?_, fun h => ?_, fun h1 h2 => ?_⟩ <;>
    simp [buildRegexGroup, *]

/-- C4 witness: the characterization applied at base `"a"`, min 1, max 2. -/
theorem c4_witness :
    ((1 : Int) ≠ 0 ∧ (2 : Int) ≠ 0) ∧ buildRegexGroup "a" 1 2 = "a\x7b1,2\x7d" :=
  ⟨⟨by decide, by decide⟩,
    ((c4_buildRegexGroup_characterization "a" 1 2).2.2.2 (by decide) (by decide)).trans (by decide)⟩

/-- C5 counterexample: the claim says
`Replace(regex, "/a(b)c/gi", "$1")` on `"ABCxAbc"` yields `"BxB"`.  The code
yields `"Bxb"`: the `$1` backreference reproduces each capture with its
original case (`"B"` from `"ABC"`, `"b"` from `"Abc"`). -/
theorem c5_regex_example_counterexample :
    regexReplaceOp "/a(b)c/gi".toList "$1".toList "ABCxAbc".toList = "Bxb".toList ∧
      "Bxb".toList ≠ "BxB".toList :=
  ⟨by decide, by decide⟩

/-- C5 amended: a pattern of the form `/body/flags` (body free of `/` and of
line terminators, flags drawn from g, i, m, u, s, y) is parsed as a regex
literal; a string not starting with `/` is not; and the concrete example
yields `"Bxb"` (captures keep their original case), not `"BxB"`. -/
theorem c5_regex_literal_parse_and_example :
    (∀ body flags : List Char,
        (∀ c ∈ body, c ≠ '/' ∧ isLineTerm c = false) →
        (∀ c ∈ flags, isRegexFlagChar c = true) →
        splitRegexLiteral ('/' :: (body ++ '/' :: flags)) = some (body, flags)) ∧
      (∀ s : List Char, s.head? ≠ some '/' → splitRegexLiteral s = none) ∧
      regexReplaceOp "/a(b)c/gi".toList "$1".toList "ABCxAbc".toList = "Bxb".toList := by
  refine ⟨?_, ?_, by decide⟩
  · intro body flags hb hf
    have h := splitRegexLiteralGo_append body [] flags hb (List.all_eq_true.mpr hf)
    simpa [splitRegexLiteral] using h
  · intro s h
    cases s with
    | nil => rfl
    | cons c t =>
      have hc : c ≠ '/' := fun hEq => h (by simp [hEq])
      unfold splitRegexLiteral
      split
      · rename_i rest heq
        injection heq with h1 _
        exact absurd h1 hc
      · rfl

/-- C5 witness: the parse characterization applied at body `"a"`, flags `"g"`,
and the non-literal case at `"x"`. -/
theorem c5_witness :
    ((∀ c ∈ (['a'] : List Char), c ≠ '/' ∧ isLineTerm c = false) ∧
        (∀ c ∈ (['g'] : List Char), isRegexFlagChar c = true) ∧
        (['x'] : List Char).head? ≠ some '/') ∧
      splitRegexLiteral ('/' :: (['a'] ++ '/' :: ['g'])) = some (['a'], ['g']) ∧
      splitRegexLiteral ['x'] = none :=
  ⟨⟨by decide, by decide, by decide⟩,
    c5_regex_literal_parse_and_example.1 ['a'] ['g'] (by decide) (by decide),
    c5_regex_literal_parse_and_example.2.1 ['x'] (by decide)⟩

/-- C6 counterexample: the claim says a value already committed to the output
record is preferred over the raw record's value whenever it exists.  With
the empty string committed at `"a"` and `"x"` in the raw record, the code
resolves to `"x"`: the `||` fallback treats the committed `""` as a miss. -/
theorem c6_fromJSON_falsy_committed_counterexample :
    resolveFromJSON true false [("a", .str [])] [("a", .str ['x'])] "a" = .text ['x'] ∧
      ResolveResult.text ['x'] ≠ .text [] :=
  ⟨by decide, by decide⟩

/-- C6 amended: in read-manipulated mode, `fromFile` prefers a committed
attachment by presence and falls back to the raw record when the key is
absent; `fromJSON` prefers a committed value only when it is truthy — an
absent or falsy committed value (in particular an empty string) falls back to
the raw record's value; either way a miss in the preferred location only
changes priority, it never fails. -/
theorem c6_read_manipulated_priority :
    (∀ (cs : Charset) (sb : Bool) (nb ib : List (String × Bytes)) (k : String) (d : Bytes),
        nb.lookup k = some d →
        resolveFromFile true cs sb nb ib k = .text (iconvDecode d cs { stripBOM := some sb })) ∧
      (∀ (cs : Charset) (sb : Bool) (nb ib : List (String × Bytes)) (k : String),
        nb.lookup k = none →
        resolveFromFile true cs sb nb ib k = resolveFromFile false cs sb nb ib k) ∧
      (∀ (sk : Bool) (nj ij : List (String × JVal)) (k : String) (v : JVal),
        nj.lookup k = some v → truthy (some v) = true →
        resolveFromJSON true sk nj ij k = resolveValue sk (some v)) ∧
      (∀ (sk : Bool) (nj ij : List (String × JVal)) (k : String),
        truthy (nj.lookup k) = false →
        resolveFromJSON true sk nj ij k = resolveValue sk (ij.lookup k)) := by
  refine ⟨?_, ?_, ?_, ?_⟩
  · intro cs sb nb ib k d h
    simp [resolveFromFile, h]
  · intro cs sb nb ib k h
    simp [resolveFromFile, h]
  · intro sk nj ij k v h ht
    simp [resolveFromJSON, h, ht]
  · intro sk nj ij k h
    simp [resolveFromJSON, h]

/-- C6 witness: the truthy-committed clause applied at a committed `"y"` over
a raw `"x"`. -/
theorem c6_witness :
    (List.lookup "a" [("a", JVal.str ['y'])] = some (JVal.str ['y']) ∧
        truthy (some (JVal.str ['y'])) = true) ∧
      resolveFromJSON true false [("a", JVal.str ['y'])] [("a", JVal.str ['x'])] "a" =
        resolveValue false (some (JVal.str ['y'])) :=
  ⟨⟨by decide, by decide⟩,
    c6_read_manipulated_priority.2.2.1 false [("a", .str ['y'])] [("a", .str ['x'])] "a"
      (.str ['y']) (by decide) (by decide)⟩

/-- C7 counterexample: the claim says every Trim with trim string `" "` —
including the per-character algorithm — performs whitespace trimming.  On
`"\tx"` the per-character trim removes nothing (the tab is not a space),
while whitespace trimming yields `"x"`. -/
theorem c7_perchar_space_trim_counterexample :
    trimOp "trimBoth" false [' '] ['\t', 'x'] = .ok ['\t', 'x'] ∧
      jsTrim ['\t', 'x'] = ['x'] ∧ (['\t', 'x'] : List Char) ≠ ['x'] :=
  ⟨by decide, by decide, by decide⟩

/-- C7 amended: only the as-unit algorithm fast-paths a single-space trim
string to locale-aware whitespace trimming of the affected end(s); the
per-character algorithm with trim string `" "` removes exactly the runs of
literal space characters. -/
theorem c7_space_trim_fast_path_only_as_unit (s : List Char) :
    trimOp "trimBoth" true [' '] s = .ok (jsTrim s) ∧
      trimOp "trimStart" true [' '] s = .ok (jsTrimStart s) ∧
      trimOp "trimEnd" true [' '] s = .ok (jsTrimEnd s) ∧
      trimOp "trimStart" false [' '] s = .ok (s.dropWhile (fun c => decide (c = ' '))) ∧
      trimOp "trimEnd" false [' '] s =
        .ok ((s.reverse.dropWhile (fun c => decide (c = ' '))).reverse) ∧
      trimOp "trimBoth" false [' '] s =
        .ok (((s.dropWhile (fun c => decide (c = ' '))).reverse.dropWhile
          (fun c => decide (c = ' '))).reverse) := by
  refine ⟨?_, ?_, ?_, ?_, ?_, ?_⟩ <;>
    simp [trimOp, charsTrim, charsTrimStart, charsTrimEnd, lodashTrim, lodashTrimStart,
      lodashTrimEnd, contains_single_space]
